import Mathlib

/-!
Shallow embedding of the Rust HTTP server (files src/request.rs, src/http.rs,
src/response.rs, src/connection.rs of the repository).  Bytes are modelled as
Nat values; ASCII string literals are turned into byte lists with strB.  The
Unicode-sensitive string operations of the source (str::trim and
str::to_lowercase on header names and values) are modelled on the ASCII
fragment, which is the fragment the theorems below quantify over; UTF-8
validation (String::from_utf8 on the target, BufRead::lines on header lines)
is modelled by a full byte-level UTF-8 validator.
-/

/-- Byte list of an ASCII string literal.  Every literal passed to strB in
this file is ASCII, where codepoints and UTF-8 bytes coincide. -/
def strB (s : String) : List Nat := s.data.map Char.toNat

/-- Bytes of http::CRLF, the b-double-quote r-n constant of src/http.rs. -/
def CRLFb : List Nat := [13, 10]

/-- Bytes of the double CRLF separating the header block from the body. -/
def pat4 : List Nat := [13, 10, 13, 10]

/-- Bytes of http::VERSION (HTTP/1.1) of src/http.rs. -/
def httpVersionB : List Nat := strB "HTTP/1.1"

/-- Position of the first occurrence of pat, as computed by the
windows(n).position(..) idiom of src/request.rs; none when pat never occurs
(in particular when the list is shorter than pat). -/
def findPos (pat : List Nat) : List Nat → Option Nat
  | [] => none
  | x :: xs => if pat.isPrefixOf (x :: xs) then some 0 else (findPos pat xs).map (· + 1)

/-- Rust slice::split on the space byte: n separators yield n+1 parts, so runs
of spaces produce empty parts (src/request.rs, request-line parsing). -/
def splitOnSpace : List Nat → List (List Nat)
  | [] => [[]]
  | b :: rest =>
    if b = 32 then [] :: splitOnSpace rest
    else
      match splitOnSpace rest with
      | [] => [[b]]
      | part :: parts => (b :: part) :: parts

/-- Rust str::strip_prefix at byte level. -/
def stripPrefixB (p l : List Nat) : Option (List Nat) :=
  if p.isPrefixOf l then some (l.drop p.length) else none

/-- ASCII whitespace bytes (the ASCII fragment of char::is_whitespace used by
str::trim in src/request.rs). -/
def isWsB (b : Nat) : Bool := b = 9 || b = 10 || b = 11 || b = 12 || b = 13 || b = 32

/-- Byte-level model of str::trim, on the ASCII fragment. -/
def trimB (l : List Nat) : List Nat :=
  ((l.dropWhile isWsB).reverse.dropWhile isWsB).reverse

/-- Byte-level model of str::to_lowercase, on the ASCII fragment. -/
def toLowerB (l : List Nat) : List Nat :=
  l.map (fun b => if 65 ≤ b ∧ b ≤ 90 then b + 32 else b)

/-- State-machine core of the UTF-8 validator: cnt pending continuation
bytes, the next one constrained to the interval lo..hi, later ones to
128..191. -/
def validUTF8Aux : List Nat → Nat → Nat → Nat → Bool
  | [], cnt, _, _ => decide (cnt = 0)
  | b :: rest, cnt, lo, hi =>
    if cnt ≠ 0 then
      if lo ≤ b ∧ b ≤ hi then validUTF8Aux rest (cnt - 1) 128 191 else false
    else
      if b < 128 then validUTF8Aux rest 0 128 191
      else if b < 194 then false
      else if b < 224 then validUTF8Aux rest 1 128 191
      else if b = 224 then validUTF8Aux rest 2 160 191
      else if b = 237 then validUTF8Aux rest 2 128 159
      else if b < 240 then validUTF8Aux rest 2 128 191
      else if b = 240 then validUTF8Aux rest 3 144 191
      else if b < 244 then validUTF8Aux rest 3 128 191
      else if b = 244 then validUTF8Aux rest 3 128 143
      else false

/-- Byte-level UTF-8 validity, modelling the checks done by
String::from_utf8 (request target) and BufRead::lines (header lines). -/
def validUTF8 (l : List Nat) : Bool := validUTF8Aux l 0 128 191

/-- Turn a reversed accumulated line into the emitted line, stripping the one
trailing carriage return that preceded the newline (BufRead::lines
semantics). -/
def stripCRrev (cur : List Nat) : List Nat :=
  if cur.head? = some 13 then cur.tail.reverse else cur.reverse

/-- Worker for linesOf: cur is the current line accumulated in reverse.  On a
newline byte the line is emitted via stripCRrev; a final fragment without a
newline is emitted unstripped, and only when non-empty. -/
def linesOfAux : List Nat → List Nat → List (List Nat)
  | cur, [] => if cur = [] then [] else [cur.reverse]
  | cur, b :: rest =>
    if b = 10 then stripCRrev cur :: linesOfAux [] rest
    else linesOfAux (b :: cur) rest

/-- Byte-level model of BufRead::lines over the header block. -/
def linesOf (l : List Nat) : List (List Nat) := linesOfAux [] l

/-- Association-list model of HashMap insert: the new value replaces any
binding of the same key (last write wins). -/
def aInsert : List (List Nat × List Nat) → List Nat → List Nat → List (List Nat × List Nat)
  | [], k, v => [(k, v)]
  | (k0, v0) :: rest, k, v =>
    if k0 = k then (k, v) :: rest else (k0, v0) :: aInsert rest k v

/-- Association-list model of HashMap get. -/
def aLookup : List (List Nat × List Nat) → List Nat → Option (List Nat)
  | [], _ => none
  | (k0, v0) :: rest, k => if k0 = k then some v0 else aLookup rest k

/-- The request::Error enum of src/request.rs, extended with the two error
kinds that pass through the same anyhow::Result: other io::Error kinds from
the read loop (ioError, carrying an abstract kind code) and the
FromUtf8Error of String::from_utf8 on the target (invalidUtf8). -/
inductive ReqError
  | missingRequestLine
  | missingHTTPMethod
  | missingRequestTarget
  | missingHTTPVersion
  | unsupportedHTTPVersion
  | unsupportedMethod
  | invalidHeader
  | requestTimeout
  | ioError (kind : Nat)
  | invalidUtf8
deriving DecidableEq

/-- The request::Method enum of src/request.rs. -/
inductive Method
  | get
  | post
deriving DecidableEq

/-- Method::decode of src/request.rs. -/
def Method.decode (data : List Nat) : Except ReqError Method :=
  if data = strB "GET" then .ok .get
  else if data = strB "POST" then .ok .post
  else .error .unsupportedMethod

/-- Wire bytes of each method token. -/
def methodBytes : Method → List Nat
  | .get => strB "GET"
  | .post => strB "POST"

/-- The request::Request struct of src/request.rs; the target is kept as its
(UTF-8 valid) byte sequence; headers are the HashMap modelled as an
association list. -/
structure Request where
  method : Method
  target : List Nat
  headers : List (List Nat × List Nat)
  body : Option (List Nat)
deriving DecidableEq

/-- Model of header.splitn(2, colon): the part before the first colon and
everything after it; none when the line has no colon. -/
def parseHeaderLine (line : List Nat) : Option (List Nat × List Nat) :=
  match findPos [58] line with
  | some i => some (line.take i, line.drop (i + 1))
  | none => none

/-- The header-parsing while-let loop of src/request.rs.  A line that is not
valid UTF-8 makes lines() yield an Err, which silently ends the while-let
loop (the headers collected so far are kept); a valid line without a colon
is the InvalidHeader error; otherwise the trimmed lower-cased name and
trimmed value are inserted, last write winning. -/
def parseHeaders : List (List Nat) → List (List Nat × List Nat) →
    Except ReqError (List (List Nat × List Nat))
  | [], m => .ok m
  | line :: rest, m =>
    if validUTF8 line then
      match parseHeaderLine line with
      | some kv => parseHeaders rest (aInsert m (toLowerB (trimB kv.1)) (trimB kv.2))
      | none => .error .invalidHeader
    else .ok m

/-- The header-block extraction of src/request.rs: the bytes up to the first
double CRLF become the header buffer and the rest becomes the body source;
when no double CRLF occurs the header buffer is empty and all remaining
bytes become the body source (the map_or branch). -/
def splitHeadBody (rest0 : List Nat) : List Nat × List Nat :=
  match findPos pat4 rest0 with
  | some i => (rest0.take i, rest0.drop (i + 4))
  | none => ([], rest0)

/-- Tail of Request::decode after the request line is parsed: header parsing,
body formation (None exactly when no bytes remain), and the final
String::from_utf8 on the target. -/
def decodeTail (method : Method) (ttok headersBuf rest1 : List Nat) :
    Except ReqError Request :=
  match parseHeaders (linesOf headersBuf) [] with
  | .error e => .error e
  | .ok headers =>
    if validUTF8 ttok then
      .ok ⟨method, ttok, headers, if rest1 = [] then none else some rest1⟩
    else .error .invalidUtf8

/-- Parsing of the request line bytes (split on single spaces, method,
target and version extraction with their errors), continued on the bytes
after the request line CRLF. -/
def decodeLine (requestLine rest0 : List Nat) : Except ReqError Request :=
  match splitOnSpace requestLine with
  | [] => .error .missingHTTPMethod
  | mtok :: parts1 =>
    if mtok = [] then .error .missingHTTPMethod
    else
      match Method.decode mtok with
      | .error e => .error e
      | .ok method =>
        match parts1 with
        | [] => .error .missingRequestTarget
        | ttok :: parts2 =>
          match parts2 with
          | [] => .error .missingHTTPVersion
          | vtok :: _ =>
            if vtok ≠ httpVersionB then .error .unsupportedHTTPVersion
            else
              decodeTail method ttok (splitHeadBody rest0).1 (splitHeadBody rest0).2

/-- The parsing stage of Request::decode of src/request.rs, applied to the
accumulated bytes: request-line delimitation at the first CRLF, then the
request line, header block and body. -/
def decodeBytes (input : List Nat) : Except ReqError Request :=
  match findPos CRLFb input with
  | none => .error .missingRequestLine
  | some crIndex => decodeLine (input.take crIndex) (input.drop (crIndex + 2))

/-- Joining header lines with CRLF, the inverse of the line splitting: the
wire form of a header block. -/
def joinCRLF : List (List Nat) → List Nat
  | [] => []
  | [l] => l
  | l :: rest => l ++ 13 :: 10 :: joinCRLF rest

/-- A wire header line built from a name and a value around a colon byte. -/
def mkHeaderLine (p : List Nat × List Nat) : List Nat := p.1 ++ 58 :: p.2

/-- Header map described by the spec wording: keys are the lower-cased,
whitespace-trimmed names, values are the whitespace-trimmed value strings,
and the last value wins for a repeated name.  Written for comparison with
the map built by decodeBytes. -/
def headerMapOf (pairs : List (List Nat × List Nat)) : List (List Nat × List Nat) :=
  pairs.foldl (fun m p => aInsert m (toLowerB (trimB p.1)) (trimB p.2)) []

/-- Wire bytes of a GET / request with the given header lines and body. -/
def mkRequestBytes (lines : List (List Nat)) (body : List Nat) : List Nat :=
  strB "GET / HTTP/1.1" ++ 13 :: 10 :: (joinCRLF lines ++ 13 :: 10 :: 13 :: 10 :: body)

/-- Well-formedness of a header name and value pair: no CR, LF, and (for the
name) no colon, and ASCII only, the fragment over which the byte-level trim
and lowercase model agrees with the source. -/
abbrev WfHeaderPair (p : List Nat × List Nat) : Prop :=
  13 ∉ p.1 ∧ 10 ∉ p.1 ∧ 58 ∉ p.1 ∧ (∀ x ∈ p.1, x < 128) ∧
    13 ∉ p.2 ∧ 10 ∉ p.2 ∧ (∀ x ∈ p.2, x < 128)

/-- Well-formedness of a raw header line: non-empty, no CR or LF, ASCII. -/
abbrev WfRawLine (l : List Nat) : Prop :=
  l ≠ [] ∧ 13 ∉ l ∧ 10 ∉ l ∧ ∀ x ∈ l, x < 128

/-- Outcome kinds of a single reader.read call, abstracting io::ErrorKind:
the two kinds mapped to RequestTimeout and all others. -/
inductive IOErrKind
  | timedOut
  | wouldBlock
  | other (code : Nat)
deriving DecidableEq

/-- One event of the byte stream handed to Request::decode: a successful
read (the bytes placed into the 32-byte buffer) or a failing read. -/
inductive ReadEv
  | chunk (data : List Nat)
  | fail (kind : IOErrKind)
deriving DecidableEq

/-- Request::BUFFER_SIZE of src/request.rs. -/
def bufferSize : Nat := 32

/-- The read-accumulation loop of Request::decode: stop on a zero-byte read
or on a read that does not fill the buffer; a TimedOut or WouldBlock failure
becomes RequestTimeout without any retry; any other failure is surfaced as
that io error.  An exhausted event list behaves like a zero-byte read. -/
def accumulate : List ReadEv → List Nat → Except ReqError (List Nat)
  | [], acc => .ok acc
  | .chunk d :: rest, acc =>
    if d.length = 0 then .ok acc
    else if d.length < bufferSize then .ok (acc ++ d)
    else accumulate rest (acc ++ d)
  | .fail k :: _, _ =>
    match k with
    | .timedOut => .error .requestTimeout
    | .wouldBlock => .error .requestTimeout
    | .other code => .error (.ioError code)

/-- Request::decode of src/request.rs over a modelled stream: accumulate
bytes, then parse them. -/
def Request.decode (stream : List ReadEv) : Except ReqError Request :=
  match accumulate stream [] with
  | .error e => .error e
  | .ok bytes => decodeBytes bytes

/-- The response::StatusCode enum.  The variants Ok, NotFound and BadRequest
and their wire bytes are from src/response.rs.  Modelled from the spec: the
Created variant, referenced by Connection::process in src/connection.rs but
absent from the StatusCode enum in the src/response.rs snapshot, with wire
bytes 201 Created as given by the spec (section 3) and by the
connection.rs test post_file_201. -/
inductive StatusCode
  | ok
  | created
  | notFound
  | badRequest
deriving DecidableEq

/-- StatusCode::as_bytes of src/response.rs (created: see StatusCode). -/
def StatusCode.asBytes : StatusCode → List Nat
  | .ok => strB "200 OK"
  | .created => strB "201 Created"
  | .notFound => strB "404 Not Found"
  | .badRequest => strB "400 Bad Request"

/-- The http::Header enum of src/http.rs. -/
inductive Header
  | contentEncoding (value : List Nat)
  | contentType (value : List Nat)
  | custom (name : List Nat) (value : List Nat)
deriving DecidableEq

/-- Header::name of src/http.rs. -/
def Header.name : Header → List Nat
  | .contentEncoding _ => strB "Content-Encoding"
  | .contentType _ => strB "Content-Type"
  | .custom n _ => n

/-- Header::value of src/http.rs. -/
def Header.value : Header → List Nat
  | .contentEncoding v => v
  | .contentType v => v
  | .custom _ v => v

/-- Total order on Nat as an Ordering, the byte comparison underlying the
derived Ord on String fields. -/
def cmpNat (a b : Nat) : Ordering :=
  if a < b then .lt else if b < a then .gt else .eq

/-- Lexicographic byte-list comparison, the derived Ord of Rust String. -/
def cmpBytes : List Nat → List Nat → Ordering
  | [], [] => .eq
  | [], _ :: _ => .lt
  | _ :: _, [] => .gt
  | x :: xs, y :: ys =>
    match cmpNat x y with
    | .eq => cmpBytes xs ys
    | o => o

/-- Discriminant order of the Header variants as declared in src/http.rs. -/
def Header.variantIdx : Header → Nat
  | .contentEncoding _ => 0
  | .contentType _ => 1
  | .custom _ _ => 2

/-- The derived Ord of Header in src/http.rs: discriminant order first, then
the fields in declaration order.  Note that this derived order compares the
value fields, unlike the hand-written PartialEq of the same file which
identifies headers by kind and name only. -/
def Header.cmp : Header → Header → Ordering
  | .contentEncoding a, .contentEncoding b => cmpBytes a b
  | .contentType a, .contentType b => cmpBytes a b
  | .custom n1 v1, .custom n2 v2 =>
    match cmpBytes n1 n2 with
    | .eq => cmpBytes v1 v2
    | o => o
  | h1, h2 => cmpNat h1.variantIdx h2.variantIdx

/-- BTreeSet::insert over a list sorted by Header.cmp: navigation and the
duplicate test use the derived Ord only, and when an Ord-equal element is
already present the set keeps the existing element. -/
def insertHeader (h : Header) : List Header → List Header
  | [] => [h]
  | x :: xs =>
    match Header.cmp h x with
    | .lt => h :: x :: xs
    | .eq => x :: xs
    | .gt => x :: insertHeader h xs

/-- The response::Response struct of src/response.rs; headers is the
BTreeSet of Header modelled as a Header.cmp-sorted list. -/
structure Response where
  statusCode : StatusCode
  headers : List Header
  body : Option (List Nat)
deriving DecidableEq

/-- Response::new of src/response.rs. -/
def Response.new (sc : StatusCode) : Response := ⟨sc, [], none⟩

/-- Response::add_header of src/response.rs. -/
def Response.addHeader (r : Response) (h : Header) : Response :=
  { r with headers := insertHeader h r.headers }

/-- Response::body of src/response.rs (named setBody here because body is
the field name): inserts a Content-Length header carrying the decimal byte
length, then stores the body. -/
def Response.setBody (r : Response) (b : List Nat) : Response :=
  let r1 := r.addHeader (.custom (strB "Content-Length") (strB (toString b.length)))
  { r1 with body := some b }

/-- One encoded header line, Name colon space Value CRLF. -/
def headerLine (h : Header) : List Nat := h.name ++ strB ": " ++ h.value ++ CRLFb

/-- The header-emission loop of Response::encode. -/
def encodeHeaders : List Header → List Nat
  | [] => []
  | h :: rest => headerLine h ++ encodeHeaders rest

/-- Response::encode of src/response.rs: version, space, status bytes, CRLF,
the header lines in set order, a blank CRLF, then the body bytes. -/
def Response.encode (r : Response) : List Nat :=
  httpVersionB ++ strB " " ++ r.statusCode.asBytes ++ CRLFb
    ++ encodeHeaders r.headers ++ CRLFb
    ++ (match r.body with | some b => b | none => [])

/-- Filesystem model for the file routes: paths mapped to contents. -/
abbrev FS := List (List Nat × List Nat)

/-- fs::read outcome on the modelled filesystem. -/
def fsRead (fs : FS) (path : List Nat) : Option (List Nat) := aLookup fs path

/-- fs::write on the modelled filesystem: creates or overwrites. -/
def fsWrite (fs : FS) (path contents : List Nat) : FS := aInsert fs path contents

/-- PathBuf::push at byte level: an absolute component replaces the path; a
component pushed onto an empty path becomes the path; otherwise a separator
is inserted unless already present. -/
def pathPush (base p : List Nat) : List Nat :=
  if p.head? = some 47 then p
  else if base = [] then p
  else if base.getLast? = some 47 then base ++ p
  else base ++ 47 :: p

/-- The path built by the file routes of Connection::process: a fresh
PathBuf, push of the directory when configured, then push of the filename. -/
def resolvePath (dir : Option (List Nat)) (filename : List Nat) : List Nat :=
  match dir with
  | some d => pathPush (pathPush [] d) filename
  | none => pathPush [] filename

/-- http::SUPPORTED_ENCODINGS of src/http.rs. -/
def supportedEncodings : List (List Nat) := [strB "gzip"]

/-- The 200 response of the GET files route: octet-stream content type and
the file contents as body. -/
def mkFileResponse (contents : List Nat) : Response :=
  ((Response.new .ok).addHeader (.contentType (strB "application/octet-stream"))).setBody contents

/-- The routing match of Connection::process (src/connection.rs), as a pure
function of the decoded request, the optional directory, the modelled
filesystem and a flag for the outcome of fs::write.  The result none models
a panic: the two unwrap calls of the POST files arm (strip_prefix after a
guard that only checked the shorter prefix, and request.body) and the
structurally impossible unwrap of the echo and GET files arms. -/
def route (req : Request) (dir : Option (List Nat)) (fs : FS) (writeOk : Bool) :
    Option (Response × FS) :=
  if req.method = .get ∧ req.target = strB "/" then
    some (Response.new .ok, fs)
  else if req.method = .get ∧ (strB "/echo/").isPrefixOf req.target then
    let r0 := (Response.new .ok).addHeader (.contentType (strB "text/plain"))
    let r1 :=
      match aLookup req.headers (strB "accept-encoding") with
      | some enc =>
        if supportedEncodings.contains enc then
          r0.addHeader (.contentEncoding (strB "gzip"))
        else r0
      | none => r0
    match stripPrefixB (strB "/echo/") req.target with
    | some suffix => some (r1.setBody suffix, fs)
    | none => none
  else if req.method = .get ∧ req.target = strB "/user-agent" then
    match aLookup req.headers (strB "user-agent") with
    | none => some (Response.new .badRequest, fs)
    | some ua =>
      some (((Response.new .ok).addHeader (.contentType (strB "text/plain"))).setBody ua, fs)
  else if req.method = .get ∧ (strB "/files/").isPrefixOf req.target then
    match stripPrefixB (strB "/files/") req.target with
    | none => none
    | some filename =>
      match fsRead fs (resolvePath dir filename) with
      | none => some (Response.new .notFound, fs)
      | some contents => some (mkFileResponse contents, fs)
  else if req.method = .post ∧ (strB "/files").isPrefixOf req.target then
    match stripPrefixB (strB "/files/") req.target with
    | none => none
    | some filename =>
      match req.body with
      | none => none
      | some b =>
        some (Response.new .created, if writeOk then fsWrite fs (resolvePath dir filename) b else fs)
  else
    some (Response.new .notFound, fs)

/-! Helper lemmas about the byte-level primitives. -/

theorem take_len_append (a b : List Nat) : (a ++ b).take a.length = a := by
  induction a with
  | nil => rfl
  | cons x xs ih => simp [List.take_succ_cons, ih]

theorem drop_len_append (a b : List Nat) (k : Nat) :
    (a ++ b).drop (a.length + k) = b.drop k := by
  induction a with
  | nil => simp
  | cons x xs ih =>
    have h : (x :: xs).length + k = (xs.length + k) + 1 := by
      simp [List.length_cons]; omega
    rw [h, List.cons_append, List.drop_succ_cons, ih]

theorem isPrefixOf_append_self (a b : List Nat) : a.isPrefixOf (a ++ b) = true := by
  induction a with
  | nil => cases b <;> rfl
  | cons x xs ih =>
    have hstep : ((x :: xs).isPrefixOf (x :: xs ++ b)) = (x == x && xs.isPrefixOf (xs ++ b)) := rfl
    rw [List.cons_append] at hstep ⊢
    rw [hstep, ih, beq_self_eq_true, Bool.true_and]

theorem isPrefixOf_head_false (c : Nat) (p l : List Nat) (h : l.head? ≠ some c) :
    (c :: p).isPrefixOf l = false := by
  cases l with
  | nil => rfl
  | cons x xs =>
    have hx : ¬(c = x) := by
      intro he; exact h (by simp [he])
    have hstep : ((c :: p).isPrefixOf (x :: xs)) = (c == x && p.isPrefixOf xs) := rfl
    rw [hstep]
    have hbeq : (c == x) = false := by
      rw [beq_eq_false_iff_ne]; exact hx
    rw [hbeq, Bool.false_and]

theorem findPos_append_shift (c : Nat) (p a b : List Nat) (ha : c ∉ a) :
    findPos (c :: p) (a ++ b) = (findPos (c :: p) b).map (a.length + ·) := by
  induction a with
  | nil =>
    simp only [List.nil_append, List.length_nil]
    cases hb : findPos (c :: p) b <;> simp
  | cons x xs ih =>
    have hx : x ≠ c := fun he => ha (by simp [he])
    have hxs : c ∉ xs := fun hm => ha (List.mem_cons_of_mem _ hm)
    rw [List.cons_append]
    rw [findPos]
    rw [isPrefixOf_head_false c p (x :: (xs ++ b)) (by simp; intro he; exact hx he)]
    simp only [Bool.false_eq_true, if_false, ih hxs]
    cases hb : findPos (c :: p) b <;> simp [List.length_cons] <;> omega

theorem findPos_none_of_not_mem (c : Nat) (p l : List Nat) (h : c ∉ l) :
    findPos (c :: p) l = none := by
  have := findPos_append_shift c p l [] h
  simpa using this

theorem findPos_single_mem (c : Nat) (l : List Nat) (h : c ∈ l) :
    ∃ i, findPos [c] l = some i := by
  induction l with
  | nil => exact absurd h (by simp)
  | cons x xs ih =>
    rw [findPos]
    by_cases hpre : ([c].isPrefixOf (x :: xs)) = true
    · rw [hpre]; exact ⟨0, by simp⟩
    · rw [Bool.not_eq_true] at hpre
      rw [hpre]
      have hx : x ≠ c := by
        intro he; apply absurd hpre; simp [List.isPrefixOf, he]
      have hxs : c ∈ xs := by
        cases h with
        | head => exact absurd rfl hx
        | tail _ hm => exact hm
      obtain ⟨i, hi⟩ := ih hxs
      exact ⟨i + 1, by simp [hi]⟩

theorem splitOnSpace_no_space (a : List Nat) (h : 32 ∉ a) : splitOnSpace a = [a] := by
  induction a with
  | nil => rfl
  | cons x xs ih =>
    have hx : x ≠ 32 := fun he => h (by simp [he])
    have hxs : 32 ∉ xs := fun hm => h (List.mem_cons_of_mem _ hm)
    rw [splitOnSpace, if_neg hx, ih hxs]

theorem splitOnSpace_append_space (a b : List Nat) (h : 32 ∉ a) :
    splitOnSpace (a ++ 32 :: b) = a :: splitOnSpace b := by
  induction a with
  | nil => simp [splitOnSpace]
  | cons x xs ih =>
    have hx : x ≠ 32 := fun he => h (by simp [he])
    have hxs : 32 ∉ xs := fun hm => h (List.mem_cons_of_mem _ hm)
    rw [List.cons_append, splitOnSpace, if_neg hx, ih hxs]

theorem not_mem_splitOnSpace (l : List Nat) : ∀ p ∈ splitOnSpace l, 32 ∉ p := by
  induction l with
  | nil =>
    intro p hp
    simp [splitOnSpace] at hp
    simp [hp]
  | cons b rest ih =>
    intro p hp
    rw [splitOnSpace] at hp
    by_cases hb : b = 32
    · rw [if_pos hb] at hp
      cases hp with
      | head => simp
      | tail _ hm => exact ih p hm
    · rw [if_neg hb] at hp
      cases hs : splitOnSpace rest with
      | nil =>
        rw [hs] at hp; simp at hp
        simp [hp]
        intro he; exact hb he.symm
      | cons part parts =>
        rw [hs] at hp
        cases hp with
        | head =>
          have hpart : 32 ∉ part := ih part (by rw [hs]; exact List.mem_cons_self _ _)
          simp
          exact ⟨fun he => hb he.symm, hpart⟩
        | tail _ hm => exact ih p (by rw [hs]; exact List.mem_cons_of_mem _ hm)

theorem validUTF8Aux_ascii (l : List Nat) (h : ∀ x ∈ l, x < 128) :
    validUTF8Aux l 0 128 191 = true := by
  induction l with
  | nil => rfl
  | cons b rest ih =>
    have hb : b < 128 := h b (List.mem_cons_self _ _)
    have hrest : ∀ x ∈ rest, x < 128 := fun x hx => h x (List.mem_cons_of_mem _ hx)
    rw [validUTF8Aux, if_neg (by simp), if_pos hb]
    exact ih hrest

theorem validUTF8_ascii (l : List Nat) (h : ∀ x ∈ l, x < 128) : validUTF8 l = true :=
  validUTF8Aux_ascii l h

theorem linesOfAux_append (l : List Nat) (h : 10 ∉ l) :
    ∀ cur rest, linesOfAux cur (l ++ rest) = linesOfAux (l.reverse ++ cur) rest := by
  induction l with
  | nil => intro cur rest; rfl
  | cons x xs ih =>
    intro cur rest
    have hx : ¬(x = 10) := fun he => h (by simp [he])
    rw [List.cons_append, linesOfAux, if_neg hx, ih (fun hm => h (List.mem_cons_of_mem _ hm))]
    simp

theorem linesOf_joinCRLF : ∀ (lines : List (List Nat)),
    (∀ l ∈ lines, l ≠ [] ∧ 13 ∉ l ∧ 10 ∉ l) → linesOf (joinCRLF lines) = lines := by
  intro lines
  induction lines with
  | nil => intro _; rfl
  | cons l rest ih =>
    intro hwf
    obtain ⟨hne, h13, h10⟩ := hwf l (List.mem_cons_self _ _)
    have hrest : ∀ x ∈ rest, x ≠ [] ∧ 13 ∉ x ∧ 10 ∉ x :=
      fun x hx => hwf x (List.mem_cons_of_mem _ hx)
    cases rest with
    | nil =>
      have h2 := linesOfAux_append l h10 [] []
      rw [List.append_nil, List.append_nil] at h2
      show linesOfAux [] (joinCRLF [l]) = [l]
      have h3 : joinCRLF [l] = l := rfl
      rw [h3, h2, linesOfAux, if_neg (by simpa using hne)]
      simp
    | cons l2 rest2 =>
      have ihr : linesOfAux [] (joinCRLF (l2 :: rest2)) = l2 :: rest2 := ih hrest
      have h1 : joinCRLF (l :: l2 :: rest2) = l ++ (13 :: 10 :: joinCRLF (l2 :: rest2)) := by
        simp [joinCRLF]
      show linesOfAux [] (joinCRLF (l :: l2 :: rest2)) = l :: l2 :: rest2
      rw [h1, linesOfAux_append l h10 [] _, List.append_nil]
      rw [linesOfAux, if_neg (by omega)]
      rw [linesOfAux, if_pos rfl]
      have hs : stripCRrev (13 :: l.reverse) = l := by
        simp [stripCRrev]
      rw [hs, ihr]

theorem findPos_crlf_boundary (a b : List Nat) (h : 13 ∉ a) :
    findPos CRLFb (a ++ 13 :: 10 :: b) = some a.length := by
  have h1 : findPos CRLFb (a ++ 13 :: 10 :: b) =
      (findPos CRLFb (13 :: 10 :: b)).map (a.length + ·) :=
    findPos_append_shift 13 [10] a (13 :: 10 :: b) h
  have h2 : findPos CRLFb (13 :: 10 :: b) = some 0 := by
    rw [findPos, if_pos]
    exact isPrefixOf_append_self [13, 10] b
  rw [h1, h2]
  simp

theorem joinCRLF_head (l2 : List Nat) (rest : List (List Nat)) (h : l2 ≠ []) :
    (joinCRLF (l2 :: rest)).head? = l2.head? := by
  cases rest with
  | nil => rfl
  | cons l3 rest3 =>
    have h1 : joinCRLF (l2 :: l3 :: rest3) = l2 ++ (13 :: 10 :: joinCRLF (l3 :: rest3)) := by
      simp [joinCRLF]
    rw [h1]
    cases l2 with
    | nil => exact absurd rfl h
    | cons y ys => rfl

theorem findPos_pat4_join : ∀ (lines : List (List Nat)) (c : List Nat),
    (∀ l ∈ lines, l ≠ [] ∧ 13 ∉ l ∧ 10 ∉ l) →
    findPos pat4 (joinCRLF lines ++ 13 :: 10 :: 13 :: 10 :: c) = some (joinCRLF lines).length := by
  intro lines
  induction lines with
  | nil =>
    intro c _
    show findPos pat4 (13 :: 10 :: 13 :: 10 :: c) = some 0
    rw [findPos, if_pos]
    exact isPrefixOf_append_self [13, 10, 13, 10] c
  | cons l rest ih =>
    intro c hwf
    obtain ⟨hne, h13, h10⟩ := hwf l (List.mem_cons_self _ _)
    have hrest : ∀ x ∈ rest, x ≠ [] ∧ 13 ∉ x ∧ 10 ∉ x :=
      fun x hx => hwf x (List.mem_cons_of_mem _ hx)
    cases rest with
    | nil =>
      have h1 : joinCRLF [l] = l := rfl
      rw [h1]
      have h2 : findPos pat4 (l ++ 13 :: 10 :: 13 :: 10 :: c) =
          (findPos pat4 (13 :: 10 :: 13 :: 10 :: c)).map (l.length + ·) :=
        findPos_append_shift 13 [10, 13, 10] l _ h13
      have h3 : findPos pat4 (13 :: 10 :: 13 :: 10 :: c) = some 0 := by
        rw [findPos, if_pos]
        exact isPrefixOf_append_self [13, 10, 13, 10] c
      rw [h2, h3]
      simp
    | cons l2 rest2 =>
      obtain ⟨hne2, h13b, h10b⟩ := hrest l2 (List.mem_cons_self _ _)
      have hJ := ih c hrest
      have h1 : joinCRLF (l :: l2 :: rest2) = l ++ (13 :: 10 :: joinCRLF (l2 :: rest2)) := by
        simp [joinCRLF]
      rw [h1]
      have hM : (joinCRLF (l2 :: rest2) ++ 13 :: 10 :: 13 :: 10 :: c).head? ≠ some 13 := by
        have hh : (joinCRLF (l2 :: rest2)).head? = l2.head? := joinCRLF_head l2 rest2 hne2
        cases hjj : joinCRLF (l2 :: rest2) with
        | nil =>
          rw [hjj] at hh
          cases l2 with
          | nil => exact absurd rfl hne2
          | cons y ys => simp at hh
        | cons z zs =>
          rw [hjj] at hh
          rw [List.cons_append]
          intro he
          have hz : z = 13 := by simpa using he
          cases l2 with
          | nil => exact absurd rfl hne2
          | cons y ys =>
            have hzy : z = y := by simpa using hh
            apply h13b
            have hy13 : y = 13 := by omega
            rw [hy13]
            exact List.mem_cons_self _ _
      have hshift : findPos pat4 ((l ++ (13 :: 10 :: joinCRLF (l2 :: rest2))) ++ 13 :: 10 :: 13 :: 10 :: c) =
          (findPos pat4 ((13 :: 10 :: joinCRLF (l2 :: rest2)) ++ 13 :: 10 :: 13 :: 10 :: c)).map (l.length + ·) := by
        rw [List.append_assoc]
        exact findPos_append_shift 13 [10, 13, 10] l _ h13
      rw [hshift]
      have hs1 : findPos pat4 ((13 :: 10 :: joinCRLF (l2 :: rest2)) ++ 13 :: 10 :: 13 :: 10 :: c) =
          (findPos pat4 (joinCRLF (l2 :: rest2) ++ 13 :: 10 :: 13 :: 10 :: c)).map (· + 1 + 1) := by
        rw [List.cons_append, List.cons_append]
        rw [findPos]
        have hp1 : (pat4.isPrefixOf
            (13 :: 10 :: (joinCRLF (l2 :: rest2) ++ 13 :: 10 :: 13 :: 10 :: c))) = false := by
          have : pat4.isPrefixOf (13 :: 10 :: (joinCRLF (l2 :: rest2) ++ 13 :: 10 :: 13 :: 10 :: c)) =
              ([13, 10] : List Nat).isPrefixOf (joinCRLF (l2 :: rest2) ++ 13 :: 10 :: 13 :: 10 :: c) := by
            simp [pat4, List.isPrefixOf]
          rw [this]
          exact isPrefixOf_head_false 13 [10] _ hM
        rw [hp1]
        simp only [Bool.false_eq_true, if_false]
        rw [findPos]
        have hp2 : (pat4.isPrefixOf
            (10 :: (joinCRLF (l2 :: rest2) ++ 13 :: 10 :: 13 :: 10 :: c))) = false := by
          apply isPrefixOf_head_false
          simp
        rw [hp2]
        simp only [Bool.false_eq_true, if_false]
        cases hv : findPos pat4 (joinCRLF (l2 :: rest2) ++ 13 :: 10 :: 13 :: 10 :: c) <;> simp
      rw [hs1, hJ]
      simp [List.length_append, List.length_cons]
      try omega

theorem splitHeadBody_join (lines : List (List Nat)) (body : List Nat)
    (h : ∀ l ∈ lines, l ≠ [] ∧ 13 ∉ l ∧ 10 ∉ l) :
    splitHeadBody (joinCRLF lines ++ 13 :: 10 :: 13 :: 10 :: body) = (joinCRLF lines, body) := by
  have hf := findPos_pat4_join lines body h
  rw [splitHeadBody, hf]
  show ((joinCRLF lines ++ 13 :: 10 :: 13 :: 10 :: body).take (joinCRLF lines).length,
      (joinCRLF lines ++ 13 :: 10 :: 13 :: 10 :: body).drop ((joinCRLF lines).length + 4)) =
    (joinCRLF lines, body)
  rw [take_len_append, drop_len_append]
  rfl

theorem splitHeadBody_none (rest0 : List Nat) (h : findPos pat4 rest0 = none) :
    splitHeadBody rest0 = ([], rest0) := by
  rw [splitHeadBody, h]

theorem aLookup_aInsert (m : List (List Nat × List Nat)) (k v : List Nat) :
    aLookup (aInsert m k v) k = some v := by
  induction m with
  | nil => simp [aInsert, aLookup]
  | cons p rest ih =>
    obtain ⟨k0, v0⟩ := p
    by_cases hk : k0 = k
    · rw [aInsert, if_pos hk, aLookup, if_pos rfl]
    · rw [aInsert, if_neg hk, aLookup, if_neg hk]
      exact ih

theorem parseHeaderLine_mk (n v : List Nat) (h58 : 58 ∉ n) :
    parseHeaderLine (n ++ 58 :: v) = some (n, v) := by
  have h1 : findPos [58] (n ++ 58 :: v) = some n.length := by
    have hs := findPos_append_shift 58 [] n (58 :: v) h58
    have h2 : findPos [58] (58 :: v) = some 0 := by
      rw [findPos, if_pos]
      exact isPrefixOf_append_self [58] v
    rw [hs, h2]
    simp
  rw [parseHeaderLine, h1]
  show some ((n ++ 58 :: v).take n.length, (n ++ 58 :: v).drop (n.length + 1)) = some (n, v)
  rw [take_len_append, drop_len_append]
  rfl

theorem parseHeaders_wf : ∀ (pairs : List (List Nat × List Nat)),
    (∀ p ∈ pairs, WfHeaderPair p) → ∀ m,
    parseHeaders (pairs.map mkHeaderLine) m =
      .ok (pairs.foldl (fun m p => aInsert m (toLowerB (trimB p.1)) (trimB p.2)) m) := by
  intro pairs
  induction pairs with
  | nil => intro _ m; rfl
  | cons p rest ih =>
    intro hwf m
    obtain ⟨h13n, h10n, h58n, hasciin, h13v, h10v, hasciiv⟩ := hwf p (List.mem_cons_self _ _)
    have hrest : ∀ q ∈ rest, WfHeaderPair q := fun q hq => hwf q (List.mem_cons_of_mem _ hq)
    rw [List.map_cons, parseHeaders]
    have hvu : validUTF8 (mkHeaderLine p) = true := by
      apply validUTF8_ascii
      intro x hx
      rw [mkHeaderLine] at hx
      rcases List.mem_append.mp hx with hx1 | hx2
      · exact hasciin x hx1
      · rcases List.mem_cons.mp hx2 with hx3 | hx4
        · omega
        · exact hasciiv x hx4
    rw [if_pos hvu]
    have hpl : parseHeaderLine (mkHeaderLine p) = some (p.1, p.2) :=
      parseHeaderLine_mk p.1 p.2 h58n
    rw [hpl]
    rw [List.foldl_cons]
    exact ih hrest _

theorem parseHeaders_colonless : ∀ (lines : List (List Nat)),
    (∀ l ∈ lines, ∀ x ∈ l, x < 128) → (∃ l ∈ lines, 58 ∉ l) →
    ∀ m, parseHeaders lines m = .error .invalidHeader := by
  intro lines
  induction lines with
  | nil => intro _ hex m; simp at hex
  | cons line rest ih =>
    intro hascii hex m
    have hvu : validUTF8 line = true :=
      validUTF8_ascii line (hascii line (List.mem_cons_self _ _))
    rw [parseHeaders, if_pos hvu]
    by_cases h58 : (58 : Nat) ∈ line
    · obtain ⟨i, hi⟩ := findPos_single_mem 58 line h58
      have hpl : parseHeaderLine line = some (line.take i, line.drop (i + 1)) := by
        rw [parseHeaderLine, hi]
      rw [hpl]
      have hex2 : ∃ l ∈ rest, (58 : Nat) ∉ l := by
        obtain ⟨l0, hl0mem, hl058⟩ := hex
        rcases List.mem_cons.mp hl0mem with he | hm
        · subst he; exact absurd h58 hl058
        · exact ⟨l0, hm, hl058⟩
      exact ih (fun l hl => hascii l (List.mem_cons_of_mem _ hl)) hex2 _
    · have hpl : parseHeaderLine line = none := by
        rw [parseHeaderLine, findPos_none_of_not_mem 58 [] line h58]
      rw [hpl]

theorem cmpNat_lt_ne (a b : Nat) (h : cmpNat a b = .lt) : a ≠ b := by
  unfold cmpNat at h
  split_ifs at h with h1 h2
  omega

theorem cmpNat_gt_ne (a b : Nat) (h : cmpNat a b = .gt) : a ≠ b := by
  unfold cmpNat at h
  split_ifs at h with h1 h2
  omega

theorem cmpNat_eq_iff (a b : Nat) : cmpNat a b = .eq ↔ a = b := by
  unfold cmpNat
  split_ifs with h1 h2 <;> simp <;> omega

theorem cmpBytes_eq_iff : ∀ (a b : List Nat), cmpBytes a b = .eq ↔ a = b := by
  intro a
  induction a with
  | nil => intro b; cases b <;> simp [cmpBytes]
  | cons x xs ih =>
    intro b
    cases b with
    | nil => simp [cmpBytes]
    | cons y ys =>
      rw [cmpBytes]
      cases hc : cmpNat x y with
      | eq =>
        have hxy : x = y := (cmpNat_eq_iff x y).mp hc
        simp [hxy, ih ys]
      | lt =>
        have hxy := cmpNat_lt_ne x y hc
        simp [hxy]
      | gt =>
        have hxy := cmpNat_gt_ne x y hc
        simp [hxy]

theorem headerCmp_eq_iff (h1 h2 : Header) : Header.cmp h1 h2 = .eq ↔ h1 = h2 := by
  cases h1 with
  | contentEncoding a =>
    cases h2 <;> simp [Header.cmp, Header.variantIdx, cmpNat, cmpBytes_eq_iff]
  | contentType a =>
    cases h2 <;> simp [Header.cmp, Header.variantIdx, cmpNat, cmpBytes_eq_iff]
  | custom n1 v1 =>
    cases h2 with
    | contentEncoding b => simp [Header.cmp, Header.variantIdx, cmpNat]
    | contentType b => simp [Header.cmp, Header.variantIdx, cmpNat]
    | custom n2 v2 =>
      rw [Header.cmp]
      cases hc : cmpBytes n1 n2 with
      | eq =>
        have hn : n1 = n2 := (cmpBytes_eq_iff n1 n2).mp hc
        simp [hn, cmpBytes_eq_iff]
      | lt =>
        have hn : ¬(n1 = n2) := by
          intro he
          rw [he, (cmpBytes_eq_iff n2 n2).mpr rfl] at hc
          exact absurd hc (by simp)
        simp [hn]
      | gt =>
        have hn : ¬(n1 = n2) := by
          intro he
          rw [he, (cmpBytes_eq_iff n2 n2).mpr rfl] at hc
          exact absurd hc (by simp)
        simp [hn]

theorem mem_insertHeader (h : Header) : ∀ (l : List Header), h ∈ insertHeader h l := by
  intro l
  induction l with
  | nil => simp [insertHeader]
  | cons x xs ih =>
    rw [insertHeader]
    cases hc : Header.cmp h x with
    | lt => exact List.mem_cons_self _ _
    | eq =>
      have hx : h = x := (headerCmp_eq_iff h x).mp hc
      rw [hx]
      exact List.mem_cons_self _ _
    | gt => exact List.mem_cons_of_mem _ ih

theorem encodeHeaders_append (s t : List Header) :
    encodeHeaders (s ++ t) = encodeHeaders s ++ encodeHeaders t := by
  induction s with
  | nil => rfl
  | cons h rest ih =>
    rw [List.cons_append, encodeHeaders, encodeHeaders, ih, List.append_assoc]

theorem methodBytes_decode (m : Method) : Method.decode (methodBytes m) = .ok m := by
  cases m <;> rfl

theorem decodeBytes_some (input : List Nat) (n : Nat) (h : findPos CRLFb input = some n) :
    decodeBytes input = decodeLine (input.take n) (input.drop (n + 2)) := by
  rw [decodeBytes, h]

theorem decodeBytes_requestLine (meth : Method) (t rest : List Nat)
    (ht32 : 32 ∉ t) (ht13 : 13 ∉ t) :
    decodeBytes (methodBytes meth ++ 32 :: (t ++ 32 :: (httpVersionB ++ 13 :: 10 :: rest))) =
      decodeTail meth t (splitHeadBody rest).1 (splitHeadBody rest).2 := by
  have hmb13 : (13 : Nat) ∉ methodBytes meth := by cases meth <;> decide
  have hmb32 : (32 : Nat) ∉ methodBytes meth := by cases meth <;> decide
  have hmbne : methodBytes meth ≠ [] := by cases meth <;> decide
  have hv13 : (13 : Nat) ∉ httpVersionB := by decide
  have hv32 : (32 : Nat) ∉ httpVersionB := by decide
  have hA13 : (13 : Nat) ∉ methodBytes meth ++ 32 :: (t ++ 32 :: httpVersionB) := by
    intro hmem
    rcases List.mem_append.mp hmem with h1 | h2
    · exact hmb13 h1
    · rcases List.mem_cons.mp h2 with h3 | h4
      · omega
      · rcases List.mem_append.mp h4 with h5 | h6
        · exact ht13 h5
        · rcases List.mem_cons.mp h6 with h7 | h8
          · omega
          · exact hv13 h8
  have heq : methodBytes meth ++ 32 :: (t ++ 32 :: (httpVersionB ++ 13 :: 10 :: rest)) =
      (methodBytes meth ++ 32 :: (t ++ 32 :: httpVersionB)) ++ 13 :: 10 :: rest := by
    simp [List.append_assoc]
  rw [heq]
  rw [decodeBytes_some _ _ (findPos_crlf_boundary _ rest hA13)]
  rw [take_len_append]
  have hd : ((methodBytes meth ++ 32 :: (t ++ 32 :: httpVersionB)) ++ 13 :: 10 :: rest).drop
      ((methodBytes meth ++ 32 :: (t ++ 32 :: httpVersionB)).length + 2) = rest := by
    rw [drop_len_append]
    rfl
  rw [hd]
  have hsplit : splitOnSpace (methodBytes meth ++ 32 :: (t ++ 32 :: httpVersionB)) =
      methodBytes meth :: t :: [httpVersionB] := by
    rw [splitOnSpace_append_space _ _ hmb32, splitOnSpace_append_space _ _ ht32,
      splitOnSpace_no_space _ hv32]
  rw [decodeLine, hsplit]
  show (if methodBytes meth = [] then Except.error ReqError.missingHTTPMethod
    else
      match Method.decode (methodBytes meth) with
      | .error e => .error e
      | .ok method =>
        if httpVersionB ≠ httpVersionB then Except.error ReqError.unsupportedHTTPVersion
        else decodeTail method t (splitHeadBody rest).1 (splitHeadBody rest).2) =
    decodeTail meth t (splitHeadBody rest).1 (splitHeadBody rest).2
  rw [if_neg hmbne, methodBytes_decode meth]
  show (if httpVersionB ≠ httpVersionB then Except.error ReqError.unsupportedHTTPVersion
    else decodeTail meth t (splitHeadBody rest).1 (splitHeadBody rest).2) =
    decodeTail meth t (splitHeadBody rest).1 (splitHeadBody rest).2
  rw [if_neg (by simp)]

theorem decodeTail_no_headers (meth : Method) (t rest1 : List Nat)
    (ha : ∀ x ∈ t, x < 128) :
    decodeTail meth t [] rest1 = .ok ⟨meth, t, [], if rest1 = [] then none else some rest1⟩ := by
  show (if validUTF8 t then
      Except.ok (Request.mk meth t [] (if rest1 = [] then none else some rest1))
    else Except.error ReqError.invalidUtf8) =
    Except.ok (Request.mk meth t [] (if rest1 = [] then none else some rest1))
  rw [if_pos (validUTF8_ascii t ha)]

theorem accumulate_fail (pre : List ReadEv) (k : IOErrKind) (post : List ReadEv)
    (hpre : ∀ e ∈ pre, ∃ d, e = .chunk d ∧ d.length = bufferSize) :
    ∀ acc, accumulate (pre ++ .fail k :: post) acc =
      match k with
      | .timedOut => .error .requestTimeout
      | .wouldBlock => .error .requestTimeout
      | .other code => .error (.ioError code) := by
  induction pre with
  | nil => intro acc; rfl
  | cons e rest ih =>
    intro acc
    obtain ⟨d, he, hlen⟩ := hpre e (List.mem_cons_self _ _)
    subst he
    rw [List.cons_append, accumulate]
    rw [if_neg (by rw [hlen]; simp [bufferSize]), if_neg (by rw [hlen]; simp [bufferSize])]
    exact ih (fun e2 h2 => hpre e2 (List.mem_cons_of_mem _ h2)) _

theorem files_target_ne_root (fname : List Nat) : strB "/files/" ++ fname ≠ strB "/" := by
  intro h
  have hl := congrArg List.length h
  rw [List.length_append] at hl
  have h7 : (strB "/files/").length = 7 := rfl
  have h1 : (strB "/").length = 1 := rfl
  rw [h7, h1] at hl
  omega

theorem files_target_ne_ua (fname : List Nat) :
    strB "/files/" ++ fname ≠ strB "/user-agent" := by
  intro h
  have hg : (strB "/files/" ++ fname)[1]? = (strB "/user-agent")[1]? := by rw [h]
  have h1 : (strB "/files/" ++ fname)[1]? = some 102 := rfl
  have h2 : (strB "/user-agent")[1]? = some 117 := rfl
  rw [h1, h2] at hg
  exact absurd hg (by decide)

theorem echo_not_prefix_files (fname : List Nat) :
    (strB "/echo/").isPrefixOf (strB "/files/" ++ fname) = false := rfl

theorem files_prefixOf_self (fname : List Nat) :
    (strB "/files/").isPrefixOf (strB "/files/" ++ fname) = true :=
  isPrefixOf_append_self (strB "/files/") fname

theorem files_short_prefixOf (fname : List Nat) :
    (strB "/files").isPrefixOf (strB "/files/" ++ fname) = true := rfl

theorem stripPrefixB_files (fname : List Nat) :
    stripPrefixB (strB "/files/") (strB "/files/" ++ fname) = some fname := by
  rw [stripPrefixB, if_pos (files_prefixOf_self fname)]
  show some ((strB "/files/" ++ fname).drop (strB "/files/").length) = some fname
  have h : (strB "/files/").length = 7 := rfl
  rw [h]
  rfl

theorem resolvePath_none (fname : List Nat) : resolvePath none fname = fname := by
  rw [resolvePath, pathPush]
  split_ifs with h1 h2 h3 <;> first | rfl | exact absurd rfl h2

theorem resolvePath_some (d fname : List Nat) (hf : fname.head? ≠ some 47)
    (hd : d ≠ []) (hdl : d.getLast? ≠ some 47) :
    resolvePath (some d) fname = d ++ 47 :: fname := by
  rw [resolvePath]
  have h1 : pathPush [] d = d := by
    rw [pathPush]
    split_ifs with ha hb <;> first | rfl | exact absurd rfl hb
  rw [h1, pathPush, if_neg hf, if_neg hd, if_neg hdl]

theorem decodeTail_target (meth : Method) (ttok hb rb : List Nat) (r : Request)
    (h : decodeTail meth ttok hb rb = .ok r) : r.target = ttok := by
  rw [decodeTail] at h
  split at h
  · exact absurd h (by simp)
  · split at h
    · have hinj := Except.ok.inj h
      rw [← hinj]
    · exact absurd h (by simp)

theorem wfPairs_lines (pairs : List (List Nat × List Nat))
    (hwf : ∀ p ∈ pairs, WfHeaderPair p) :
    ∀ l ∈ pairs.map mkHeaderLine, l ≠ [] ∧ 13 ∉ l ∧ 10 ∉ l := by
  intro l hl
  obtain ⟨p, hp, hpl⟩ := List.mem_map.mp hl
  obtain ⟨h13n, h10n, h58n, han, h13v, h10v, hav⟩ := hwf p hp
  subst hpl
  refine ⟨by simp [mkHeaderLine], ?_, ?_⟩
  · rw [mkHeaderLine]
    intro hm
    rcases List.mem_append.mp hm with h1 | h2
    · exact h13n h1
    · rcases List.mem_cons.mp h2 with h3 | h4
      · omega
      · exact h13v h4
  · rw [mkHeaderLine]
    intro hm
    rcases List.mem_append.mp hm with h1 | h2
    · exact h10n h1
    · rcases List.mem_cons.mp h2 with h3 | h4
      · omega
      · exact h10v h4

/-! Claim theorems. -/

/-- C4 counterexample: a request line with an extra space between the method
and the target does not parse: the empty token becomes the target and the
version check sees the slash token, so decode fails with
UnsupportedHTTPVersion instead of succeeding.  This refutes the claim that
token splitting collapses runs of whitespace. -/
theorem c4_double_space_not_collapsed :
    decodeBytes (strB "GET  / HTTP/1.1\r\n") = .error .unsupportedHTTPVersion := rfl

/-- C4 as amended: only request lines whose three tokens are separated by
exactly one space parse; for every method and every space-free, CR-free,
ASCII target, decode of the single-space request line succeeds and round
trips the method and target (runs of whitespace are not collapsed, see the
counterexample). -/
theorem c4_single_space_request_line_parses (meth : Method) (t : List Nat)
    (ht32 : 32 ∉ t) (ht13 : 13 ∉ t) (hta : ∀ x ∈ t, x < 128) :
    decodeBytes (methodBytes meth ++ 32 :: (t ++ 32 :: (httpVersionB ++ [13, 10]))) =
      .ok ⟨meth, t, [], none⟩ := by
  rw [decodeBytes_requestLine meth t [] ht32 ht13]
  exact decodeTail_no_headers meth t [] hta

/-- C4 witness: the amended theorem applied to GET with target /abc. -/
theorem c4_single_space_request_line_parses_witness :
    decodeBytes (methodBytes .get ++ 32 :: (strB "/abc" ++ 32 :: (httpVersionB ++ [13, 10]))) =
      .ok ⟨.get, strB "/abc", [], none⟩ :=
  c4_single_space_request_line_parses .get (strB "/abc") (by decide) (by decide) (by decide)

/-- C5 counterexample: the byte stream GET, two spaces, HTTP/1.1, CRLF
decodes successfully and its target is the empty string, refuting the
invariant that the target is always non-empty once construction
succeeds. -/
theorem c5_empty_target_decodes :
    decodeBytes (strB "GET  HTTP/1.1\r\n") = .ok ⟨.get, [], [], none⟩ := rfl

/-- C10: when the bytes after a valid request line contain no double CRLF,
decode still succeeds with an empty header map and with all of those bytes
becoming the body (some bytes when non-empty, none when empty);
header-looking trailing lines are never parsed and never raise
InvalidHeader. -/
theorem c10_missing_double_crlf_body (meth : Method) (t rest : List Nat)
    (ht32 : 32 ∉ t) (ht13 : 13 ∉ t) (hta : ∀ x ∈ t, x < 128)
    (hrest : findPos pat4 rest = none) :
    decodeBytes (methodBytes meth ++ 32 :: (t ++ 32 :: (httpVersionB ++ 13 :: 10 :: rest))) =
      .ok ⟨meth, t, [], if rest = [] then none else some rest⟩ := by
  rw [decodeBytes_requestLine meth t rest ht32 ht13, splitHeadBody_none rest hrest]
  exact decodeTail_no_headers meth t rest hta

/-- C10 witness: a GET request whose trailing bytes look like a header line
but lack the double CRLF; they become the body and no header is parsed. -/
theorem c10_missing_double_crlf_body_witness :
    decodeBytes (methodBytes .get ++ 32 :: (strB "/x" ++ 32 ::
        (httpVersionB ++ 13 :: 10 :: strB "User-Agent: ru"))) =
      .ok ⟨.get, strB "/x", [], some (strB "User-Agent: ru")⟩ :=
  c10_missing_double_crlf_body .get (strB "/x") (strB "User-Agent: ru")
    (by decide) (by decide) (by decide) (by decide)

/-- C6: for every header block of well-formed (ASCII, CR-free, LF-free)
Name colon Value lines, decode produces exactly the header map described by
the spec (headerMapOf: lower-cased trimmed names, trimmed values, last
value winning for a repeated name), and for every such block in which some
line lacks a colon, decode fails with InvalidHeader. -/
theorem c6_header_block_decoding :
    (∀ (pairs : List (List Nat × List Nat)) (body : List Nat),
      (∀ p ∈ pairs, WfHeaderPair p) →
      decodeBytes (mkRequestBytes (pairs.map mkHeaderLine) body) =
        .ok ⟨.get, strB "/", headerMapOf pairs, if body = [] then none else some body⟩) ∧
    (∀ (lines : List (List Nat)) (body : List Nat),
      (∀ l ∈ lines, WfRawLine l) → (∃ l ∈ lines, (58 : Nat) ∉ l) →
      decodeBytes (mkRequestBytes lines body) = .error .invalidHeader) := by
  constructor
  · intro pairs body hwf
    have hlines := wfPairs_lines pairs hwf
    have h0 : mkRequestBytes (pairs.map mkHeaderLine) body =
        methodBytes .get ++ 32 :: (strB "/" ++ 32 :: (httpVersionB ++ 13 :: 10 ::
          (joinCRLF (pairs.map mkHeaderLine) ++ 13 :: 10 :: 13 :: 10 :: body))) := rfl
    rw [h0, decodeBytes_requestLine .get (strB "/") _ (by decide) (by decide),
      splitHeadBody_join _ _ hlines]
    show decodeTail .get (strB "/") (joinCRLF (pairs.map mkHeaderLine)) body =
      .ok ⟨.get, strB "/", headerMapOf pairs, if body = [] then none else some body⟩
    rw [decodeTail]
    have hph : parseHeaders (linesOf (joinCRLF (pairs.map mkHeaderLine))) [] =
        .ok (headerMapOf pairs) := by
      rw [linesOf_joinCRLF _ hlines]
      exact parseHeaders_wf pairs hwf []
    rw [hph]
    show (if validUTF8 (strB "/") then
        Except.ok (Request.mk .get (strB "/") (headerMapOf pairs)
          (if body = [] then none else some body))
      else Except.error ReqError.invalidUtf8) =
      Except.ok (Request.mk .get (strB "/") (headerMapOf pairs)
        (if body = [] then none else some body))
    rw [if_pos (by decide)]
  · intro lines body hwf hex
    have hlines : ∀ l ∈ lines, l ≠ [] ∧ 13 ∉ l ∧ 10 ∉ l := fun l hl =>
      ⟨(hwf l hl).1, (hwf l hl).2.1, (hwf l hl).2.2.1⟩
    have h0 : mkRequestBytes lines body = methodBytes .get ++ 32 :: (strB "/" ++ 32 ::
        (httpVersionB ++ 13 :: 10 :: (joinCRLF lines ++ 13 :: 10 :: 13 :: 10 :: body))) := rfl
    rw [h0, decodeBytes_requestLine .get (strB "/") _ (by decide) (by decide),
      splitHeadBody_join _ _ hlines]
    show decodeTail .get (strB "/") (joinCRLF lines) body = .error .invalidHeader
    rw [decodeTail]
    have hph : parseHeaders (linesOf (joinCRLF lines)) [] = .error .invalidHeader := by
      rw [linesOf_joinCRLF _ hlines]
      exact parseHeaders_colonless lines (fun l hl => (hwf l hl).2.2.2) hex []
    rw [hph]

/-- C6 witness: a User-Agent header with surrounding whitespace is decoded
into the lower-cased trimmed map together with the body, and a colon-free
line yields InvalidHeader. -/
theorem c6_header_block_decoding_witness :
    decodeBytes (mkRequestBytes ([(strB "User-Agent", strB " rust ")].map mkHeaderLine)
        (strB "hi")) =
      .ok ⟨.get, strB "/", headerMapOf [(strB "User-Agent", strB " rust ")],
        some (strB "hi")⟩ ∧
    decodeBytes (mkRequestBytes [strB "Bad Header"] []) = .error .invalidHeader := by
  constructor
  · exact (c6_header_block_decoding.1 [(strB "User-Agent", strB " rust ")] (strB "hi")
      (by decide))
  · exact c6_header_block_decoding.2 [strB "Bad Header"] [] (by decide) (by decide)

/-- C5 as amended: for every stream on which Request::decode succeeds, the
method is one of the enumerated variants and the target contains no space
byte; the target may however be empty (see the counterexample), so the
non-emptiness part of the claim is dropped. -/
theorem c5_target_space_free (stream : List ReadEv) (r : Request)
    (h : Request.decode stream = .ok r) :
    (r.method = .get ∨ r.method = .post) ∧ 32 ∉ r.target := by
  refine ⟨?_, ?_⟩
  · cases r.method
    · exact Or.inl rfl
    · exact Or.inr rfl
  · rw [Request.decode] at h
    split at h
    · exact absurd h (by simp)
    · rename_i bytes heq
      rw [decodeBytes] at h
      split at h
      · exact absurd h (by simp)
      · rename_i crIndex hfp
        rw [decodeLine] at h
        split at h
        · exact absurd h (by simp)
        · rename_i mtok parts1 hsp
          split at h
          · exact absurd h (by simp)
          · split at h
            · exact absurd h (by simp)
            · rename_i meth hmd
              split at h
              · exact absurd h (by simp)
              · rename_i ttok parts2
                split at h
                · exact absurd h (by simp)
                · rename_i vtok tail2
                  split at h
                  · exact absurd h (by simp)
                  · have htt := decodeTail_target _ _ _ _ _ h
                    rw [htt]
                    apply not_mem_splitOnSpace (bytes.take crIndex)
                    rw [hsp]
                    exact List.mem_cons_of_mem _ (List.mem_cons_self _ _)

/-- C5 witness: the amended theorem applied to a decoded GET / request. -/
theorem c5_target_space_free_witness :
    ((Request.mk .get (strB "/") [] none).method = .get ∨
      (Request.mk .get (strB "/") [] none).method = .post) ∧
    (32 : Nat) ∉ (Request.mk .get (strB "/") [] none).target :=
  c5_target_space_free [ReadEv.chunk (strB "GET / HTTP/1.1\r\n")] _ rfl

/-- C7: a read that fails with a TimedOut or WouldBlock condition makes
Request::decode return RequestTimeout, without retrying (the result does
not depend on anything after the failing read), and a read failing with any
other kind is surfaced as that io error, not as RequestTimeout. -/
theorem c7_read_failure_handling (pre : List ReadEv) (k : IOErrKind) (post : List ReadEv)
    (hpre : ∀ e ∈ pre, ∃ d, e = .chunk d ∧ d.length = bufferSize) :
    ((k = .timedOut ∨ k = .wouldBlock) →
      Request.decode (pre ++ .fail k :: post) = .error .requestTimeout) ∧
    (∀ code, k = .other code →
      Request.decode (pre ++ .fail k :: post) = .error (.ioError code)) := by
  constructor
  · intro hk
    rcases hk with h1 | h1 <;> subst h1 <;>
      rw [Request.decode, accumulate_fail pre _ post hpre []]
  · intro code hk
    subst hk
    rw [Request.decode, accumulate_fail pre _ post hpre []]

/-- C7 witness: a full 32-byte read followed by a timeout and, separately,
by an unrelated io failure. -/
theorem c7_read_failure_handling_witness :
    Request.decode [ReadEv.chunk (List.replicate 32 65), ReadEv.fail .timedOut] =
      .error .requestTimeout ∧
    Request.decode [ReadEv.chunk (List.replicate 32 65), ReadEv.fail (.other 5)] =
      .error (.ioError 5) := by
  have hp : ∀ e ∈ [ReadEv.chunk (List.replicate 32 65)],
      ∃ d, e = ReadEv.chunk d ∧ d.length = bufferSize := by
    intro e he
    rw [List.mem_singleton] at he
    exact ⟨List.replicate 32 65, he, by decide⟩
  constructor
  · exact (c7_read_failure_handling [ReadEv.chunk (List.replicate 32 65)] .timedOut [] hp).1
      (Or.inl rfl)
  · exact (c7_read_failure_handling [ReadEv.chunk (List.replicate 32 65)] (.other 5) [] hp).2
      5 rfl

/-- C1: the dispatch of Connection::process is not total: the byte stream
POST /files/x HTTP/1.1 CRLF decodes successfully into a request with method
POST, target prefixed /files and body None, and on that decoded request the
POST files arm reaches request.body.unwrap() with None, a panic (modelled
as none); so the unwrap is a reachable branch, refuting the claim. -/
theorem c1_post_files_without_body_panics :
    decodeBytes (strB "POST /files/x HTTP/1.1\r\n") =
      .ok ⟨.post, strB "/files/x", [], none⟩ ∧
    route ⟨.post, strB "/files/x", [], none⟩ none [] true = none :=
  ⟨rfl, rfl⟩

/-- C2: the header set does not deduplicate by kind: BTreeSet::insert keys
on the derived Ord of Header, which compares the value fields, so two
Content-Type headers with different values occupy distinct slots and the
encoded response carries both header lines, refuting the at-most-one-per-
kind invariant and the later-insertion-wins rule. -/
theorem c2_duplicate_content_type_headers :
    (((Response.new .ok).addHeader (.contentType (strB "text/plain"))).addHeader
        (.contentType (strB "text/html"))).encode =
      strB "HTTP/1.1 200 OK\r\nContent-Type: text/html\r\nContent-Type: text/plain\r\n\r\n" :=
  rfl

/-- C3: for every response state and every body byte sequence, the body
mutator itself attaches a Content-Length header whose value is the decimal
byte length of the body, and the encoded output contains that header line;
the stored body is exactly the given bytes. -/
theorem c3_content_length_attached_by_body (r : Response) (b : List Nat) :
    (∃ pre post, (r.setBody b).encode =
      pre ++ headerLine (.custom (strB "Content-Length") (strB (toString b.length))) ++ post) ∧
    (r.setBody b).body = some b := by
  constructor
  · have hmem : (Header.custom (strB "Content-Length") (strB (toString b.length)))
        ∈ (r.setBody b).headers :=
      mem_insertHeader _ _
    obtain ⟨s, t, hst⟩ := List.append_of_mem hmem
    refine ⟨httpVersionB ++ strB " " ++ (r.setBody b).statusCode.asBytes ++ CRLFb
        ++ encodeHeaders s,
      encodeHeaders t ++ CRLFb ++ b, ?_⟩
    rw [Response.encode, hst]
    have henc : encodeHeaders (s ++
        (Header.custom (strB "Content-Length") (strB (toString b.length))) :: t) =
        encodeHeaders s ++
          headerLine (Header.custom (strB "Content-Length") (strB (toString b.length))) ++
          encodeHeaders t := by
      rw [encodeHeaders_append, encodeHeaders, ← List.append_assoc]
    rw [henc]
    have hbody : (r.setBody b).body = some b := rfl
    rw [hbody]
    simp [List.append_assoc]
  · rfl

/-- C8: for every configured directory (non-empty, without a trailing
slash), every filename not starting with a slash, every request body and
every filesystem, the POST files route writes the body to the joined path
directory slash filename, responds 201 Created regardless of whether the
write succeeds (the failure is swallowed), and a successful write
overwrites: reading the path back yields exactly the posted bytes. -/
theorem c8_post_files_always_201 (d fname : List Nat) (hdrs : List (List Nat × List Nat))
    (b : List Nat) (fs : FS) (writeOk : Bool)
    (hf : fname.head? ≠ some 47) (hd : d ≠ []) (hdl : d.getLast? ≠ some 47) :
    route ⟨.post, strB "/files/" ++ fname, hdrs, some b⟩ (some d) fs writeOk =
      some (Response.new .created,
        if writeOk then fsWrite fs (d ++ 47 :: fname) b else fs) ∧
    fsRead (fsWrite fs (d ++ 47 :: fname) b) (d ++ 47 :: fname) = some b := by
  constructor
  · have hr : route ⟨.post, strB "/files/" ++ fname, hdrs, some b⟩ (some d) fs writeOk =
        some (Response.new .created,
          if writeOk then fsWrite fs (resolvePath (some d) fname) b else fs) := by
      simp [route, files_short_prefixOf, stripPrefixB_files]
    rw [hr, resolvePath_some d fname hf hd hdl]
  · exact aLookup_aInsert fs _ b

/-- C8 witness: posting Rust to files junk with directory tmp and a failing
write still answers 201 Created, and the written path holds the bytes. -/
theorem c8_post_files_always_201_witness :
    route ⟨.post, strB "/files/" ++ strB "junk", [], some (strB "Rust")⟩
        (some (strB "tmp")) [] false =
      some (Response.new .created, []) ∧
    fsRead (fsWrite [] (strB "tmp" ++ 47 :: strB "junk") (strB "Rust"))
      (strB "tmp" ++ 47 :: strB "junk") = some (strB "Rust") :=
  c8_post_files_always_201 (strB "tmp") (strB "junk") [] (strB "Rust") [] false
    (by decide) (by decide) (by decide)

/-- C9 counterexample: with the directory absent and a file named a (relative
to the process working directory) readable, GET /files/a answers 200, not
404: the success path of the files routes is not disabled.  This mirrors the
repository test get_valid_file_200, which expects 200 with directory None. -/
theorem c9_missing_directory_can_succeed :
    (route ⟨.get, strB "/files/a", [], none⟩ none [(strB "a", [42])] true).map
      (fun p => p.1.statusCode) = some .ok :=
  rfl

/-- C9 as amended: when the directory is None the file path is the bare
filename, resolved relative to the process working directory: GET answers
200 with the file bytes when reading that relative path succeeds and 404
when it fails, and POST writes the body to that relative path and responds
201; the success path is not disabled. -/
theorem c9_missing_directory_relative_paths :
    (∀ (fname : List Nat) (hdrs : List (List Nat × List Nat)) (bd : Option (List Nat))
        (fs : FS) (w : Bool),
      route ⟨.get, strB "/files/" ++ fname, hdrs, bd⟩ none fs w =
        some ((fsRead fs fname).elim (Response.new .notFound) mkFileResponse, fs)) ∧
    (∀ (fname : List Nat) (hdrs : List (List Nat × List Nat)) (b : List Nat) (fs : FS),
      route ⟨.post, strB "/files/" ++ fname, hdrs, some b⟩ none fs true =
        some (Response.new .created, fsWrite fs fname b)) := by
  constructor
  · intro fname hdrs bd fs w
    cases hr : fsRead fs fname with
    | none =>
      simp [route, files_target_ne_root, echo_not_prefix_files, files_target_ne_ua,
        files_prefixOf_self, stripPrefixB_files, resolvePath_none, hr]
    | some c =>
      simp [route, files_target_ne_root, echo_not_prefix_files, files_target_ne_ua,
        files_prefixOf_self, stripPrefixB_files, resolvePath_none, hr]
  · intro fname hdrs b fs
    simp [route, files_short_prefixOf, stripPrefixB_files, resolvePath_none]
